import Mathlib

/-!
# Shallow embedding of the `unarray` crate

The crate builds fixed-size arrays element by element over uninitialized
storage.  We model a `MaybeUninit<T>` slot as `Option T` (`none` = the slot
has not been written), a buffer `[MaybeUninit<T>; N]` as a `List (Option T)`
of length `N`, and a finished array `[T; N]` as a `List T` of length `N`.
Undefined behaviour (reading an unwritten slot in `mark_initialized`) is
made observable as an extra `Option` layer: `none` at that layer means the
execution hit UB.
-/

namespace Unarray

/-- `uninit_buf<T, N>()` (src/lib.rs): an array of `N` uninitialized slots. -/
def uninit_buf (T : Type) (N : Nat) : List (Option T) :=
  List.replicate N none

/-- `mark_initialized` (src/lib.rs): reinterpret a buffer of slots as an array
of values.  Reading an unwritten slot is UB, modelled as `none`. -/
def mark_initialized {T : Type} : List (Option T) → Option (List T)
  | [] => some []
  | some x :: rest => (mark_initialized rest).map (fun xs => x :: xs)
  | none :: _ => none

/-- The loop of `ArrayFromIter::from_iter` (src/from_iter.rs).  `iter` is the
remaining source iterator, `slots` the unwritten tail of the buffer served by
`buf_iter`, and `buf` the already-written prefix of the buffer.  Each
iteration draws `iter.next()` and `buf_iter.next()` and matches the pair:
both present → write and continue; only an item → return `None` (too many);
only a slot → return `None` (too few); neither → `mark_initialized` on the
(fully written) buffer.  The outer `Option` is the UB layer, the inner one is
the Rust return value. -/
def fromIterLoop {T : Type} : List T → List (Option T) → List (Option T) →
    Option (Option (List T))
  | item :: iter, _slot :: slots, buf => fromIterLoop iter slots (buf ++ [some item])
  | _ :: _, [], _ => some none
  | [], _ :: _, _ => some none
  | [], [], buf => (mark_initialized buf).map some

/-- `ArrayFromIter::from_iter` (src/from_iter.rs) for a source iterator that
yields exactly the elements of `iter`, collecting into an array of length
`N`. -/
def from_iter {T : Type} (iter : List T) (N : Nat) : Option (Option (List T)) :=
  fromIterLoop iter (uninit_buf T N) []

/-- The number of `iter.next()` calls the `from_iter` loop makes: one per loop
iteration (line 35 of src/from_iter.rs), where the loop continues only while
both the source and the slot iterator yield. -/
def fromIterLoopCalls {T : Type} : List T → List (Option T) → Nat
  | _ :: iter, _ :: slots => fromIterLoopCalls iter slots + 1
  | _ :: _, [] => 1
  | [], _ => 1

/-- `next()` calls made on the source when collecting `iter` into length `N`. -/
def from_iter_calls {T : Type} (iter : List T) (N : Nat) : Nat :=
  fromIterLoopCalls iter (uninit_buf T N)

/-- The buffer states of the `from_iter` loop after each write: the state is
the written prefix `buf` followed by the unwritten `slots`, recorded right
after each `slot.write(item)`. -/
def fromIterStates {T : Type} : List T → List (Option T) → List (Option T) →
    List (List (Option T))
  | item :: iter, _slot :: slots, buf =>
      (buf ++ [some item] ++ slots) :: fromIterStates iter slots (buf ++ [some item])
  | _, _, _ => []

/-- The loop of `UnarrayArrayExt::map_result` (src/map.rs): iterate
`self.into_iter().zip(&mut result)`; on `Ok(s)` write `s` into the slot and
continue, on `Err(e)` return the error at once.  `items` is the remaining
source, `slots` the unwritten tail of the result buffer, `buf` its written
prefix; the value on normal loop exit is the whole result buffer. -/
def mapResultGo {T S E : Type} (f : T → Except E S) :
    List T → List (Option S) → List (Option S) → Except E (List (Option S))
  | item :: items, _slot :: slots, buf =>
      match f item with
      | Except.ok s => mapResultGo f items slots (buf ++ [some s])
      | Except.error e => Except.error e
  | _, slots, buf => Except.ok (buf ++ slots)

/-- `UnarrayArrayExt::map_result` (src/map.rs).  The outer `Option` is the UB
layer of `mark_initialized`; the inner `Except` is the Rust return value. -/
def map_result {T S E : Type} (arr : List T) (f : T → Except E S) :
    Option (Except E (List S)) :=
  match mapResultGo f arr (uninit_buf S arr.length) [] with
  | Except.ok result => (mark_initialized result).map Except.ok
  | Except.error e => some (Except.error e)

/-- `UnarrayArrayExt::map_option` (src/map.rs): wrap `f` into a
`Result`-returning `actual_f` with `()` as throwaway error and delegate to
`map_result`, mapping `Ok` to `Some` and `Err(())` to `None`. -/
def map_option {T S : Type} (arr : List T) (f : T → Option S) :
    Option (Option (List S)) :=
  let actual_f : T → Except Unit S := fun t =>
    match f t with
    | some s => Except.ok s
    | none => Except.error ()
  match map_result arr actual_f with
  | some (Except.ok result) => some (some result)
  | some (Except.error ()) => some none
  | none => none

/-- The source elements `f` is applied to during the `map_result` loop, in
application order: every element up to and including the first on which `f`
returns an error. -/
def mapResultCalls {T S E : Type} (f : T → Except E S) :
    List T → List (Option S) → List T
  | item :: items, _slot :: slots =>
      match f item with
      | Except.ok _ => item :: mapResultCalls f items slots
      | Except.error _ => [item]
  | _, _ => []

/-- Elements visited by `f` when `map_result` runs on `arr`. -/
def map_result_call_log {T S E : Type} (arr : List T) (f : T → Except E S) : List T :=
  mapResultCalls f arr (uninit_buf S arr.length)

/-- The result-buffer states of the `map_result` loop after each write,
analogous to `fromIterStates`. -/
def mapResultStates {T S E : Type} (f : T → Except E S) :
    List T → List (Option S) → List (Option S) → List (List (Option S))
  | item :: items, _slot :: slots, buf =>
      match f item with
      | Except.ok s =>
          (buf ++ [some s] ++ slots) :: mapResultStates f items slots (buf ++ [some s])
      | Except.error _ => []
  | _, _, _ => []

/-- Modelled from the spec: `build_array` (module `build` is declared in
src/lib.rs but src/build.rs is not among the source files).  Spec §4.2:
"calls `f` once per index 0..N in increasing order, writes each result into
the corresponding slot, then finalizes. Total function: no failure path."
`buildArrayGo f n i` performs the remaining `n` calls starting at index `i`
and returns the produced elements together with the log of indices at which
`f` was invoked, in invocation order. -/
def buildArrayGo {T : Type} (f : Nat → T) : Nat → Nat → List T × List Nat
  | 0, _ => ([], [])
  | n + 1, i =>
      let v := f i
      let rest := buildArrayGo f n (i + 1)
      (v :: rest.1, i :: rest.2)

/-- Modelled from the spec: `build_array<T, N>(f)`. -/
def build_array {T : Type} (N : Nat) (f : Nat → T) : List T :=
  (buildArrayGo f N 0).1

/-- Indices at which `build_array` invokes `f`, in invocation order. -/
def build_array_call_log {T : Type} (N : Nat) (f : Nat → T) : List Nat :=
  (buildArrayGo f N 0).2

/-- Modelled from the spec: `build_array_result` traversal.  Spec §4.2: "same
traversal; on the first index whose call returns an error, building stops
immediately — `f` is never called for greater indices — and the error is
returned. On full success, wraps the finalized array in success."  Returns
the result together with the invocation log. -/
def buildArrayResultGo {T E : Type} (f : Nat → Except E T) :
    Nat → Nat → Except E (List T) × List Nat
  | 0, _ => (Except.ok [], [])
  | n + 1, i =>
      match f i with
      | Except.ok v =>
          let rest := buildArrayResultGo f n (i + 1)
          (match rest.1 with
            | Except.ok l => Except.ok (v :: l)
            | Except.error e => Except.error e,
           i :: rest.2)
      | Except.error e => (Except.error e, [i])

/-- Modelled from the spec: `build_array_result<T, E, N>(f)`. -/
def build_array_result {T E : Type} (N : Nat) (f : Nat → Except E T) :
    Except E (List T) :=
  (buildArrayResultGo f N 0).1

/-- Indices at which `build_array_result` invokes `f`, in invocation order. -/
def build_array_result_call_log {T E : Type} (N : Nat) (f : Nat → Except E T) :
    List Nat :=
  (buildArrayResultGo f N 0).2

/-- Modelled from the spec: `build_array_option`, "identical to
`build_result`, with absence (no value) in place of error; implemented as a
thin re-expression of `build_result` ... (absence maps to a throwaway error
token internally, discarded on the failure path)". -/
def build_array_option {T : Type} (N : Nat) (f : Nat → Option T) :
    Option (List T) :=
  match build_array_result N (fun i =>
      match f i with
      | some v => Except.ok v
      | none => Except.error ()) with
  | Except.ok l => some l
  | Except.error () => none

/-- Specification-side characterization: the values `f` produces on the
longest prefix of the list on which it keeps succeeding.  Used to describe
the buffer states of the `map_result` traversal. -/
def okVals {T S E : Type} (f : T → Except E S) : List T → List S
  | [] => []
  | t :: ts =>
      match f t with
      | Except.ok s => s :: okVals f ts
      | Except.error _ => []

/-- A model of `str::parse::<i32>` as used in the spec's concrete scenarios,
over explicit character lists: a non-empty all-digit string parses to its
value, anything else is a parse error carrying the offending string. -/
def parse_int (s : List Char) : Except (List Char) Nat :=
  if s ≠ [] ∧ s.all Char.isDigit then
    Except.ok (s.foldl (fun n c => n * 10 + (c.toNat - 48)) 0)
  else
    Except.error s

/-- A concrete builder function that fails (with error `"boom"`) only at
index 1, for exercising the short-circuit behaviour. -/
def failAt1R : Nat → Except String Nat :=
  fun i => if i = 1 then Except.error "boom" else Except.ok i

/-- A concrete builder function that is absent only at index 1. -/
def failAt1O : Nat → Option Nat :=
  fun i => if i = 1 then none else some i

end Unarray

namespace Unarray

/-! Helper lemmas about `mark_initialized`. -/

theorem mark_initialized_map_some {T : Type} (vals : List T) :
    mark_initialized (vals.map some) = some vals := by
  induction vals with
  | nil => rfl
  | cons x xs ih => simp [mark_initialized, ih]

theorem fromIterLoop_eq_length {T : Type} (iter : List T) :
    ∀ buf : List (Option T),
      fromIterLoop iter (uninit_buf T iter.length) buf =
        (mark_initialized (buf ++ iter.map some)).map some := by
  induction iter with
  | nil => intro buf; simp [fromIterLoop, uninit_buf]
  | cons x xs ih =>
      intro buf
      simp only [List.length_cons, uninit_buf, List.replicate_succ]
      show fromIterLoop xs (List.replicate xs.length none) (buf ++ [some x]) = _
      rw [show List.replicate xs.length (none : Option T) = uninit_buf T xs.length from rfl]
      rw [ih (buf ++ [some x])]
      simp

theorem fromIterLoop_ne_length {T : Type} :
    ∀ (iter : List T) (slots : List (Option T)) (buf : List (Option T)),
      iter.length ≠ slots.length → fromIterLoop iter slots buf = some none := by
  intro iter
  induction iter with
  | nil =>
      intro slots buf h
      match slots with
      | [] => exact absurd rfl h
      | _ :: _ => rfl
  | cons x xs ih =>
      intro slots buf h
      match slots with
      | [] => rfl
      | s :: ss =>
          show fromIterLoop xs ss (buf ++ [some x]) = some none
          exact ih ss (buf ++ [some x]) (by simpa using h)

theorem fromIterLoopCalls_eq {T : Type} :
    ∀ (iter : List T) (slots : List (Option T)),
      fromIterLoopCalls iter slots = min iter.length slots.length + 1 := by
  intro iter
  induction iter with
  | nil => intro slots; cases slots <;> simp [fromIterLoopCalls]
  | cons x xs ih =>
      intro slots
      cases slots with
      | nil => simp [fromIterLoopCalls]
      | cons s ss =>
          simp [fromIterLoopCalls, ih ss, Nat.succ_min_succ]

theorem buildArrayGo_eq {T : Type} (f : Nat → T) :
    ∀ n i, buildArrayGo f n i = ((List.range' i n).map f, List.range' i n) := by
  intro n
  induction n with
  | zero => intro i; simp [buildArrayGo]
  | succ n ih => intro i; simp [buildArrayGo, ih (i + 1), List.range'_succ]

theorem buildArrayResultGo_stops {T E : Type} (f : Nat → Except E T) (e : E) :
    ∀ (j n i : Nat), j < n → (∀ m, m < j → (f (i + m)).isOk) →
      f (i + j) = Except.error e →
      buildArrayResultGo f n i = (Except.error e, List.range' i (j + 1)) := by
  intro j
  induction j with
  | zero =>
      intro n i hj _ herr
      match n, hj with
      | n + 1, _ =>
          simp only [Nat.add_zero] at herr
          simp [buildArrayResultGo, herr]
  | succ j ih =>
      intro n i hj hok herr
      match n, hj with
      | n + 1, hj =>
          have h0 : (f i).isOk := by simpa using hok 0 (Nat.succ_pos j)
          obtain ⟨v, hv⟩ : ∃ v, f i = Except.ok v := by
            cases hfi : f i with
            | ok v => exact ⟨v, rfl⟩
            | error e => rw [hfi] at h0; simp [Except.isOk, Except.toBool] at h0
          have hrest := ih n (i + 1) (Nat.lt_of_succ_lt_succ hj)
            (fun m hm => by
              have := hok (m + 1) (Nat.succ_lt_succ hm)
              simpa [Nat.add_assoc, Nat.add_comm 1 m] using this)
            (by simpa [Nat.add_assoc, Nat.add_comm 1 j] using herr)
          simp [buildArrayResultGo, hv, hrest, List.range'_succ]

theorem exists_ok_of_isOk {E A : Type} {x : Except E A} (h : x.isOk = true) :
    ∃ v, x = Except.ok v := by
  cases x with
  | ok v => exact ⟨v, rfl⟩
  | error e => simp [Except.isOk, Except.toBool] at h

theorem mapResultGo_all_ok {T S E : Type} (f : T → Except E S) (g : T → S) :
    ∀ (items : List T) (buf : List (Option S)),
      (∀ t ∈ items, f t = Except.ok (g t)) →
      mapResultGo f items (List.replicate items.length none) buf =
        Except.ok (buf ++ items.map (fun t => some (g t))) := by
  intro items
  induction items with
  | nil => intro buf _; simp [mapResultGo]
  | cons t ts ih =>
      intro buf hok
      have ht : f t = Except.ok (g t) := hok t (List.mem_cons_self t ts)
      simp only [List.length_cons, List.replicate_succ, mapResultGo, ht]
      rw [ih (buf ++ [some (g t)]) (fun x hx => hok x (List.mem_cons_of_mem t hx))]
      simp

theorem mapResultGo_stops {T S E : Type} (f : T → Except E S) (t : T) (e : E)
    (post : List T) (herr : f t = Except.error e) :
    ∀ (pre : List T) (slots : List (Option S)) (buf : List (Option S)),
      pre.length < slots.length → (∀ x ∈ pre, (f x).isOk) →
      mapResultGo f (pre ++ t :: post) slots buf = Except.error e := by
  intro pre
  induction pre with
  | nil =>
      intro slots buf hlen _
      match slots, hlen with
      | s :: ss, _ => simp [mapResultGo, herr]
  | cons x xs ih =>
      intro slots buf hlen hok
      match slots, hlen with
      | s :: ss, hlen =>
          obtain ⟨v, hv⟩ := exists_ok_of_isOk (hok x (List.mem_cons_self x xs))
          simp only [List.cons_append, mapResultGo, hv]
          exact ih ss (buf ++ [some v]) (Nat.lt_of_succ_lt_succ hlen)
            (fun y hy => hok y (List.mem_cons_of_mem x hy))

theorem mapResultCalls_stops {T S E : Type} (f : T → Except E S) (t : T) (e : E)
    (post : List T) (herr : f t = Except.error e) :
    ∀ (pre : List T) (slots : List (Option S)),
      pre.length < slots.length → (∀ x ∈ pre, (f x).isOk) →
      mapResultCalls f (pre ++ t :: post) slots = pre ++ [t] := by
  intro pre
  induction pre with
  | nil =>
      intro slots hlen _
      match slots, hlen with
      | s :: ss, _ => simp [mapResultCalls, herr]
  | cons x xs ih =>
      intro slots hlen hok
      match slots, hlen with
      | s :: ss, hlen =>
          obtain ⟨v, hv⟩ := exists_ok_of_isOk (hok x (List.mem_cons_self x xs))
          simp only [List.cons_append, mapResultCalls, hv, List.append_eq]
          rw [ih ss (Nat.lt_of_succ_lt_succ hlen)
            (fun y hy => hok y (List.mem_cons_of_mem x hy))]

theorem mapResultGo_cases {T S E : Type} (f : T → Except E S) :
    ∀ (items : List T) (buf : List (Option S)),
      (∃ e, mapResultGo f items (List.replicate items.length none) buf =
        Except.error e) ∨
      (∃ vals : List S, mapResultGo f items (List.replicate items.length none) buf =
        Except.ok (buf ++ vals.map some)) := by
  intro items
  induction items with
  | nil => intro buf; exact Or.inr ⟨[], by simp [mapResultGo]⟩
  | cons t ts ih =>
      intro buf
      cases hf : f t with
      | error e =>
          exact Or.inl ⟨e, by simp [List.replicate_succ, mapResultGo, hf]⟩
      | ok s =>
          rcases ih (buf ++ [some s]) with ⟨e, he⟩ | ⟨vals, hv⟩
          · exact Or.inl ⟨e, by simp [List.replicate_succ, mapResultGo, hf, he]⟩
          · refine Or.inr ⟨s :: vals, ?_⟩
            simp only [List.length_cons, List.replicate_succ, mapResultGo, hf]
            rw [hv]
            simp

theorem buildArrayResultGo_ok {T E : Type} (f : Nat → Except E T) (g : Nat → T) :
    ∀ n i, (∀ m, m < n → f (i + m) = Except.ok (g (i + m))) →
      buildArrayResultGo f n i = (Except.ok ((List.range' i n).map g), List.range' i n) := by
  intro n
  induction n with
  | zero => intro i _; simp [buildArrayResultGo]
  | succ n ih =>
      intro i hok
      have h0 : f i = Except.ok (g i) := by simpa using hok 0 (Nat.succ_pos n)
      have hrest := ih (i + 1) (fun m hm => by
        have := hok (m + 1) (Nat.succ_lt_succ hm)
        simpa [Nat.add_assoc, Nat.add_comm 1 m] using this)
      simp [buildArrayResultGo, h0, hrest, List.range'_succ]

theorem fromIterStates_eq {T : Type} :
    ∀ (iter : List T) (m : Nat) (buf : List (Option T)),
      fromIterStates iter (List.replicate m none) buf =
        (List.range' 1 (min iter.length m)).map
          (fun k => buf ++ (iter.take k).map some ++ List.replicate (m - k) none) := by
  intro iter
  induction iter with
  | nil => intro m buf; simp [fromIterStates]
  | cons x xs ih =>
      intro m buf
      cases m with
      | zero => simp [fromIterStates]
      | succ m =>
          simp only [List.replicate_succ, fromIterStates]
          rw [ih m (buf ++ [some x])]
          have hmin : min (x :: xs).length (m + 1) = min xs.length m + 1 := by
            simp [Nat.succ_min_succ]
          rw [hmin, List.range'_succ, List.map_cons]
          refine List.cons_eq_cons.mpr ⟨?_, ?_⟩
          · simp
          · rw [List.range'_eq_map_range, List.range'_eq_map_range, List.map_map,
              List.map_map]
            refine List.map_congr_left fun i hi => ?_
            simp only [Function.comp]
            have h1 : 1 + 1 + i = (1 + i) + 1 := by omega
            have h2 : m + 1 - (1 + i + 1) = m - (1 + i) := by omega
            rw [h1, h2, List.take_succ_cons]
            simp

theorem mapResultStates_eq {T S E : Type} (f : T → Except E S) :
    ∀ (items : List T) (m : Nat) (buf : List (Option S)),
      mapResultStates f items (List.replicate m none) buf =
        (List.range' 1 (min (okVals f items).length m)).map
          (fun k => buf ++ ((okVals f items).take k).map some ++
            List.replicate (m - k) none) := by
  intro items
  induction items with
  | nil => intro m buf; simp [mapResultStates, okVals]
  | cons t ts ih =>
      intro m buf
      cases m with
      | zero => simp [mapResultStates]
      | succ m =>
          cases hf : f t with
          | error e => simp [List.replicate_succ, mapResultStates, okVals, hf]
          | ok s =>
              simp only [List.replicate_succ, mapResultStates, okVals, hf]
              rw [ih m (buf ++ [some s])]
              have hmin : min (s :: okVals f ts).length (m + 1) =
                  min (okVals f ts).length m + 1 := by
                simp [Nat.succ_min_succ]
              rw [hmin, List.range'_succ, List.map_cons]
              refine List.cons_eq_cons.mpr ⟨?_, ?_⟩
              · simp
              · rw [List.range'_eq_map_range, List.range'_eq_map_range, List.map_map,
                  List.map_map]
                refine List.map_congr_left fun i hi => ?_
                simp only [Function.comp]
                have h1 : 1 + 1 + i = (1 + i) + 1 := by omega
                have h2 : m + 1 - (1 + i + 1) = m - (1 + i) := by omega
                rw [h1, h2, List.take_succ_cons]
                simp

theorem map_result_all_ok {T S E : Type} (arr : List T) (f : T → Except E S)
    (g : T → S) (h : ∀ t ∈ arr, f t = Except.ok (g t)) :
    map_result arr f = some (Except.ok (arr.map g)) := by
  simp only [map_result, uninit_buf]
  rw [mapResultGo_all_ok f g arr [] h]
  simp only [List.nil_append]
  rw [show (arr.map fun t => some (g t)) = (arr.map g).map some from by
    rw [List.map_map]; rfl]
  rw [mark_initialized_map_some]
  rfl

theorem from_iter_ne_none {T : Type} (iter : List T) (N : Nat) :
    from_iter iter N ≠ none := by
  by_cases h : iter.length = N
  · subst h
    simp only [from_iter]
    rw [fromIterLoop_eq_length iter []]
    simp [mark_initialized_map_some]
  · simp only [from_iter]
    rw [fromIterLoop_ne_length iter (uninit_buf T N) [] (by simpa [uninit_buf] using h)]
    simp

theorem map_result_ne_none {T S E : Type} (arr : List T) (f : T → Except E S) :
    map_result arr f ≠ none := by
  rcases mapResultGo_cases f arr [] with ⟨e, he⟩ | ⟨vals, hv⟩
  · simp only [map_result, uninit_buf]
    rw [he]
    simp
  · simp only [map_result, uninit_buf]
    rw [hv]
    simp [mark_initialized_map_some]

/-! ## Claim theorems -/

/-- Claim C1: under the precondition that every one of the N slots of the
storage has been written (slot `i` holding `vals[i]`), the finalizer
`mark_initialized` returns the array whose i-th element is the value written
to slot i; the branch that would read an unwritten slot (result `none`, the
UB layer) is unreachable under this precondition. -/
theorem mark_initialized_all_written {T : Type} (vals : List T) :
    mark_initialized (vals.map some) = some vals :=
  mark_initialized_map_some vals

/-- Claim C2: for every N and every source sequence yielding exactly N
values, collecting through `ArrayFromIter`'s `FromIterator` implementation
yields success (`Some`) containing exactly those N values in order (the
outer `some` is the UB layer: the run is also UB-free). -/
theorem from_iter_round_trip {T : Type} (vals : List T) :
    from_iter vals vals.length = some (some vals) := by
  simp only [from_iter]
  rw [fromIterLoop_eq_length vals []]
  simp [mark_initialized_map_some]

/-- Claim C3: for every N and every source sequence whose length differs
from N — shorter or longer, including N-1 and N+1 — collecting through
`ArrayFromIter` yields failure (`None`); there is no partial or truncating
success. -/
theorem from_iter_length_mismatch {T : Type} (iter : List T) (N : Nat)
    (h : iter.length ≠ N) : from_iter iter N = some none := by
  simp only [from_iter]
  exact fromIterLoop_ne_length iter (uninit_buf T N) [] (by simpa [uninit_buf] using h)

/-- Witness for C3 at both boundary lengths N-1 and N+1 (N = 3). -/
theorem from_iter_length_mismatch_spot :
    (([1, 2] : List Nat).length ≠ 3 ∧ from_iter [1, 2] 3 = some none) ∧
    (([1, 2, 3, 4] : List Nat).length ≠ 3 ∧ from_iter [1, 2, 3, 4] 3 = some none) :=
  ⟨⟨by decide, from_iter_length_mismatch [1, 2] 3 (by decide)⟩,
   ⟨by decide, from_iter_length_mismatch [1, 2, 3, 4] 3 (by decide)⟩⟩

/-- Claim C4: `build_array` calls `f` exactly once per index, in strictly
increasing order 0, 1, ..., N-1 (the invocation log equals
`List.range N`), and returns the array whose i-th element is `f i`; in
particular `build_array 5 (fun i => i * 2) = [0, 2, 4, 6, 8]`. -/
theorem build_array_index_order {T : Type} (N : Nat) (f : Nat → T) :
    build_array N f = (List.range N).map f ∧
    build_array_call_log N f = List.range N ∧
    build_array 5 (fun i => i * 2) = [0, 2, 4, 6, 8] := by
  refine ⟨?_, ?_, rfl⟩ <;>
    simp [build_array, build_array_call_log, buildArrayGo_eq, List.range_eq_range']

/-- Claim C10: for every source iterator yielding L items in total,
collecting into `ArrayFromIter` calls the source's `next()` exactly
`min L N + 1` times: more than N items → exactly N+1 pulled and the
remainder never consumed; N or fewer → the source is driven one step past
its last item. -/
theorem from_iter_next_calls {T : Type} (iter : List T) (N : Nat) :
    from_iter_calls iter N = min iter.length N + 1 := by
  simp [from_iter_calls, uninit_buf, fromIterLoopCalls_eq]

/-- Claim C5: for every N and index j < N, if the per-index function
succeeds at every index below j and fails at index j, then
`build_array_result` returns that first error (and `build_array_option`
returns absence), the invocation log is exactly `0, 1, ..., j`, and the
function is never invoked at any index greater than j. -/
theorem build_short_circuit {T U E : Type} (N j : Nat)
    (f : Nat → Except E T) (g : Nat → Option U) (e : E) (hj : j < N)
    (hfok : ∀ m, m < j → (f m).isOk) (hferr : f j = Except.error e)
    (hgok : ∀ m, m < j → (g m).isSome) (hgnone : g j = none) :
    build_array_result N f = Except.error e ∧
    build_array_result_call_log N f = List.range (j + 1) ∧
    (∀ i ∈ build_array_result_call_log N f, i ≤ j) ∧
    build_array_option N g = none := by
  have hmain := buildArrayResultGo_stops f e j N 0 hj
    (fun m hm => by simpa using hfok m hm) (by simpa using hferr)
  have hres : build_array_result N f = Except.error e := by
    simp [build_array_result, hmain]
  have hlog : build_array_result_call_log N f = List.range (j + 1) := by
    simp [build_array_result_call_log, hmain, List.range_eq_range']
  refine ⟨hres, hlog, ?_, ?_⟩
  · intro i hi
    rw [hlog] at hi
    exact Nat.lt_succ_iff.mp (List.mem_range.mp hi)
  · have hlift := buildArrayResultGo_stops
      (fun i => match g i with
        | some v => Except.ok v
        | none => Except.error ()) () j N 0 hj
      (fun m hm => by
        obtain ⟨v, hv⟩ := Option.isSome_iff_exists.mp (hgok m hm)
        simp [hv, Except.isOk, Except.toBool])
      (by simp [hgnone])
    simp [build_array_option, build_array_result, hlift]

/-- Witness for C5: a function failing only at index 1, with N = 3. -/
theorem build_short_circuit_spot :
    (1 < 3) ∧ (∀ m, m < 1 → (failAt1R m).isOk) ∧
    failAt1R 1 = Except.error "boom" ∧
    (∀ m, m < 1 → (failAt1O m).isSome) ∧ failAt1O 1 = none ∧
    (build_array_result 3 failAt1R = Except.error "boom" ∧
      build_array_result_call_log 3 failAt1R = List.range 2 ∧
      (∀ i ∈ build_array_result_call_log 3 failAt1R, i ≤ 1) ∧
      build_array_option 3 failAt1O = none) :=
  ⟨by decide, by decide, rfl, by decide, rfl,
    build_short_circuit 3 1 failAt1R failAt1O "boom" (by decide) (by decide) rfl
      (by decide) rfl⟩

/-- Claim C6: if every per-index/per-element call succeeds, then
`build_array_result`, `build_array_option`, `map_result` and `map_option`
each return success wrapping an array equal to what the corresponding total
operation (`build_array`, element-wise map) produces on the same inputs. -/
theorem success_preserves_totality {T U A B C E : Type} (N : Nat)
    (fb : Nat → Except E T) (gb : Nat → T)
    (fo : Nat → Option U) (go : Nat → U)
    (arr : List A) (fm : A → Except E B) (gm : A → B)
    (fn : A → Option C) (gn : A → C)
    (hb : ∀ i, i < N → fb i = Except.ok (gb i))
    (ho : ∀ i, i < N → fo i = some (go i))
    (hm : ∀ t ∈ arr, fm t = Except.ok (gm t))
    (hn : ∀ t ∈ arr, fn t = some (gn t)) :
    build_array_result N fb = Except.ok (build_array N gb) ∧
    build_array_option N fo = some (build_array N go) ∧
    map_result arr fm = some (Except.ok (arr.map gm)) ∧
    map_option arr fn = some (some (arr.map gn)) := by
  refine ⟨?_, ?_, ?_, ?_⟩
  · have h := buildArrayResultGo_ok fb gb N 0
      (fun m hm => by simpa using hb m (by simpa using hm))
    simp [build_array_result, h, build_array, buildArrayGo_eq, List.range_eq_range']
  · have h := buildArrayResultGo_ok
      (fun i => match fo i with
        | some v => Except.ok v
        | none => Except.error ()) go N 0
      (fun m hm => by simp [ho m (by simpa using hm)])
    simp [build_array_option, build_array_result, h, build_array, buildArrayGo_eq,
      List.range_eq_range']
  · exact map_result_all_ok arr fm gm hm
  · have h := map_result_all_ok arr
      (fun t => match fn t with
        | some s => Except.ok s
        | none => Except.error ()) gn
      (fun t ht => by simp [hn t ht])
    simp [map_option, h]

/-- Witness for C6: every call succeeds, N = 2, array `[3, 4]`. -/
theorem success_preserves_totality_spot :
    (∀ i, i < 2 → (fun i => (Except.ok (i * 2) : Except String Nat)) i =
      Except.ok ((fun i => i * 2) i)) ∧
    (∀ i, i < 2 → (fun i => some (i + 1)) i = some ((fun i => i + 1) i)) ∧
    (∀ t ∈ ([3, 4] : List Nat), (fun a => (Except.ok (a + 10) : Except String Nat)) t =
      Except.ok ((fun a => a + 10) t)) ∧
    (∀ t ∈ ([3, 4] : List Nat), (fun a => some (a * 3)) t = some ((fun a => a * 3) t)) ∧
    (build_array_result 2 (fun i => (Except.ok (i * 2) : Except String Nat)) =
      Except.ok (build_array 2 (fun i => i * 2)) ∧
     build_array_option 2 (fun i => some (i + 1)) = some (build_array 2 (fun i => i + 1)) ∧
     map_result [3, 4] (fun a => (Except.ok (a + 10) : Except String Nat)) =
      some (Except.ok (([3, 4] : List Nat).map (fun a => a + 10))) ∧
     map_option [3, 4] (fun a => some (a * 3)) =
      some (some (([3, 4] : List Nat).map (fun a => a * 3)))) :=
  ⟨fun _ _ => rfl, fun _ _ => rfl, fun _ _ => rfl, fun _ _ => rfl,
    success_preserves_totality 2
      (fun i => (Except.ok (i * 2) : Except String Nat)) (fun i => i * 2)
      (fun i => some (i + 1)) (fun i => i + 1)
      [3, 4] (fun a => (Except.ok (a + 10) : Except String Nat)) (fun a => a + 10)
      (fun a => some (a * 3)) (fun a => a * 3)
      (fun _ _ => rfl) (fun _ _ => rfl) (fun _ _ => rfl) (fun _ _ => rfl)⟩

/-- Claim C7: `map_result` consumes the source elements one at a time in
strictly increasing index order, applying `f` to each; at the first element
on which `f` returns an error it stops — `f` is not applied to any later
element — and returns that error.  The call log is exactly the written
prefix followed by the failing element. -/
theorem map_result_short_circuit {T S E : Type} (f : T → Except E S)
    (pre post : List T) (t : T) (e : E)
    (hok : ∀ x ∈ pre, (f x).isOk) (herr : f t = Except.error e) :
    map_result (pre ++ t :: post) f = some (Except.error e) ∧
    map_result_call_log (pre ++ t :: post) f = pre ++ [t] := by
  constructor
  · simp only [map_result]
    rw [mapResultGo_stops f t e post herr pre
      (uninit_buf S (pre ++ t :: post).length) [] (by simp [uninit_buf]) hok]
  · simp only [map_result_call_log]
    exact mapResultCalls_stops f t e post herr pre
      (uninit_buf S (pre ++ t :: post).length) (by simp [uninit_buf]) hok

/-- Witness for C7: the spec scenario `map_result(["123","uh oh"], parse_int)`
fails carrying the parse error for `"uh oh"`, and `parse_int` is applied to
both elements and no further. -/
theorem map_result_short_circuit_spot :
    (∀ x ∈ [['1', '2', '3']], (parse_int x).isOk) ∧
    parse_int ['u', 'h', ' ', 'o', 'h'] = Except.error ['u', 'h', ' ', 'o', 'h'] ∧
    map_result ([['1', '2', '3']] ++ ['u', 'h', ' ', 'o', 'h'] :: []) parse_int =
      some (Except.error ['u', 'h', ' ', 'o', 'h']) ∧
    map_result_call_log ([['1', '2', '3']] ++ ['u', 'h', ' ', 'o', 'h'] :: []) parse_int =
      [['1', '2', '3']] ++ [['u', 'h', ' ', 'o', 'h']] :=
  ⟨by decide, rfl,
    (map_result_short_circuit parse_int [['1', '2', '3']] []
      ['u', 'h', ' ', 'o', 'h'] ['u', 'h', ' ', 'o', 'h'] (by decide) rfl).1,
    (map_result_short_circuit parse_int [['1', '2', '3']] []
      ['u', 'h', ' ', 'o', 'h'] ['u', 'h', ' ', 'o', 'h'] (by decide) rfl).2⟩

/-- Claim C8: `map_option` is the delegation of absence to the
error-handling path: with `f` lifted to an `Except Unit`-returning function
(absence as throwaway error `()`), `map_option arr f` succeeds with `a`
exactly when the lifted `map_result` returns `Ok a`, and is absent exactly
when it returns the unit error. -/
theorem map_option_delegates {T S : Type} (arr : List T) (f : T → Option S) :
    (∀ a : List S,
      map_option arr f = some (some a) ↔
        map_result arr (fun t =>
          match f t with
          | some s => Except.ok s
          | none => Except.error ()) = some (Except.ok a)) ∧
    (map_option arr f = some none ↔
      map_result arr (fun t =>
        match f t with
        | some s => Except.ok s
        | none => Except.error ()) = some (Except.error ())) := by
  simp only [map_option]
  rcases h : map_result arr (fun t =>
      match f t with
      | some s => Except.ok s
      | none => Except.error ()) with _ | r
  · simp [h]
  · cases r with
    | ok l => simp [h]
    | error u => cases u; simp [h]

/-- Claim C9: every construction operation maintains the storage invariant:
each buffer state of the traversal splits at some k into slots `[0, k)`
written exactly once and `[k, N)` unwritten; the k-th state (k increasing by
one per write, so writes are in strictly increasing index order and no index
is revisited) holds exactly the first k produced values; and finalization
only happens on a fully written buffer, so the UB layer is never hit
(`≠ none`).  Stated for the `from_iter` and `map_result` traversals. -/
theorem storage_invariant :
    (∀ (T : Type) (iter : List T) (N : Nat),
      uninit_buf T N :: fromIterStates iter (uninit_buf T N) [] =
        (List.range (min iter.length N + 1)).map
          (fun k => (iter.take k).map some ++ List.replicate (N - k) none) ∧
      from_iter iter N ≠ none) ∧
    (∀ (T S E : Type) (f : T → Except E S) (arr : List T),
      uninit_buf S arr.length ::
          mapResultStates f arr (uninit_buf S arr.length) [] =
        (List.range (min (okVals f arr).length arr.length + 1)).map
          (fun k => ((okVals f arr).take k).map some ++
            List.replicate (arr.length - k) none) ∧
      map_result arr f ≠ none) := by
  constructor
  · intro T iter N
    refine ⟨?_, from_iter_ne_none iter N⟩
    simp only [uninit_buf]
    rw [fromIterStates_eq iter N []]
    rw [List.range_eq_range', List.range'_succ, List.map_cons]
    refine List.cons_eq_cons.mpr ⟨by simp, ?_⟩
    rw [List.range'_eq_map_range]
    simp
  · intro T S E f arr
    refine ⟨?_, map_result_ne_none arr f⟩
    simp only [uninit_buf]
    rw [mapResultStates_eq f arr arr.length []]
    rw [List.range_eq_range', List.range'_succ, List.map_cons]
    refine List.cons_eq_cons.mpr ⟨by simp, ?_⟩
    rw [List.range'_eq_map_range]
    simp

end Unarray



